import Mathlib

/-!
Verification of the quickcrawl core against its specification: a shallow
embedding in Lean of the TTL+LRU cache (`src/lib/cache.ts`), the
sliding-window rate limiter (`src/lib/rateLimiter.ts`), the generic workflow
engine (`src/workflow/Workflow.ts`), the crawl stage model
(`src/workflows/crawl/types.ts` and the five tasks), the crawl services
(`CrawlService.ts`, `CachedCrawlService.ts`) and the HTTP status mapping
(`src/lib/errors.ts`, `src/index.ts`).

Wall-clock time (`Date.now()`) is passed explicitly as a natural number
`now`; asynchronous execution time is modelled by giving each task a
duration, and `p-timeout` by comparing the pipeline's settle time with the
configured deadline.
-/

namespace QuickCrawl

/-!
### JavaScript `Map` as an association list

The TypeScript code stores cache entries and rate-limiter histories in a
`Map`.  No code path iterates over these maps, so an association list with
the usual get/set/delete semantics is an observationally faithful model:
`mapSet` replaces an existing binding in place (as `Map.set` does) and
appends a fresh key at the end; `mapDelete` removes the first binding of the
key (the unique one, since `Map` keys are unique).
-/

def mapGet {V : Type} : List (String × V) → String → Option V
  | [], _ => none
  | (k', v) :: rest, k => if k' = k then some v else mapGet rest k

def mapSet {V : Type} : List (String × V) → String → V → List (String × V)
  | [], k, v => [(k, v)]
  | (k', v') :: rest, k, v =>
      if k' = k then (k, v) :: rest else (k', v') :: mapSet rest k v

def mapDelete {V : Type} : List (String × V) → String → List (String × V)
  | [], _ => []
  | (k', v') :: rest, k =>
      if k' = k then rest else (k', v') :: mapDelete rest k

/-- The keys of an association list, in order. -/
def keysOf {V : Type} (m : List (String × V)) : List String := m.map Prod.fst

/-!
### `CacheService` (src/lib/cache.ts)

```ts
interface CacheEntry<T> { value: T; expiresAt: number; }

export class CacheService<K extends string, V> {
  private cache = new Map<K, CacheEntry<V>>();
  private order: K[] = [];
  constructor(private readonly ttlMs: number,
              private readonly maxSize: number = 100) {}

  get(key: K): V | undefined {
    const entry = this.cache.get(key);
    if (!entry) return undefined;
    if (Date.now() > entry.expiresAt) { this.delete(key); return undefined; }
    return entry.value;
  }

  set(key: K, value: V): void {
    if (!this.cache.has(key) && this.order.length >= this.maxSize) {
      const oldest = this.order.shift();
      if (oldest != null) this.cache.delete(oldest);
    }
    const expiresAt = Date.now() + this.ttlMs;
    this.cache.set(key, { value, expiresAt });
    const idx = this.order.indexOf(key);
    if (idx !== -1) this.order.splice(idx, 1);
    this.order.push(key);
  }

  delete(key: K): boolean {
    const deleted = this.cache.delete(key);
    if (deleted) {
      const idx = this.order.indexOf(key);
      if (idx !== -1) this.order.splice(idx, 1);
    }
    return deleted;
  }
}
```
-/

structure CacheEntry (V : Type) where
  value : V
  expiresAt : Nat

structure CacheService (V : Type) where
  cache : List (String × CacheEntry V)
  order : List String
  ttlMs : Nat
  maxSize : Nat

/-- A freshly constructed cache (`new CacheService(ttlMs, maxSize)`; the
source defaults `maxSize` to 100 when the argument is omitted). -/
def CacheService.new (V : Type) (ttlMs maxSize : Nat) : CacheService V :=
  { cache := [], order := [], ttlMs := ttlMs, maxSize := maxSize }

/-- `delete(key)`: `Map.delete` returns whether the key was present; on a
hit the key is also spliced out of `order` (first occurrence, as
`indexOf`/`splice` do). -/
def CacheService.delete {V : Type} (c : CacheService V) (k : String) :
    Bool × CacheService V :=
  if (mapGet c.cache k).isSome then
    (true, { c with cache := mapDelete c.cache k, order := c.order.erase k })
  else
    (false, c)

/-- `get(key)` at wall-clock time `now`: absent keys give `undefined`; an
entry with `now > expiresAt` is deleted as a side effect and gives
`undefined`; otherwise the value is returned and the state is untouched
(in particular `order` is not updated on a read). -/
def CacheService.get {V : Type} (c : CacheService V) (now : Nat) (k : String) :
    Option V × CacheService V :=
  match mapGet c.cache k with
  | none => (none, c)
  | some entry =>
      if entry.expiresAt < now then
        (none, (c.delete k).2)
      else
        (some entry.value, c)

/-- `set(key, value)` at wall-clock time `now`: when the key is new and
`order.length >= maxSize`, `shift()` removes the head of `order` (returning
`undefined` on an empty array, in which case no map entry is deleted) and
that oldest key is deleted from the map; then the entry is stored with
`expiresAt = now + ttlMs`, the key's old position is spliced out of `order`
and the key is pushed at the back. -/
def CacheService.set {V : Type} (c : CacheService V) (now : Nat) (k : String)
    (v : V) : CacheService V :=
  let c0 :=
    if (mapGet c.cache k).isNone ∧ c.maxSize ≤ c.order.length then
      match c.order with
      | [] => c
      | oldest :: rest => { c with cache := mapDelete c.cache oldest, order := rest }
    else c
  { c0 with cache := mapSet c0.cache k ⟨v, now + c.ttlMs⟩,
            order := c0.order.erase k ++ [k] }

/-- Number of stored entries (`this.cache.size`). -/
def CacheService.size {V : Type} (c : CacheService V) : Nat := c.cache.length

/-- One cache operation (the public interface of `CacheService`). -/
inductive CacheOp (V : Type) where
  | get (now : Nat) (k : String)
  | set (now : Nat) (k : String) (v : V)
  | del (k : String)

def applyOp {V : Type} (c : CacheService V) : CacheOp V → CacheService V
  | .get now k => (c.get now k).2
  | .set now k v => c.set now k v
  | .del k => (c.delete k).2

/-- A finite sequence of operations, applied left to right. -/
def runOps {V : Type} (c : CacheService V) (ops : List (CacheOp V)) :
    CacheService V :=
  ops.foldl applyOp c

/-- Cache well-formedness: the map's keys are a permutation of the recency
array `order`, `order` has no duplicate keys, and the capacity bound holds. -/
def CacheService.Inv {V : Type} (c : CacheService V) : Prop :=
  (keysOf c.cache).Perm c.order ∧ c.order.Nodup ∧ c.order.length ≤ c.maxSize

/-!
### `RateLimiter` (src/lib/rateLimiter.ts)

```ts
export class RateLimiter {
  private requests = new Map<string, number[]>();
  checkLimit(identifier: string, maxRequests: number, windowMs: number): boolean {
    const now = Date.now();
    const timestamps = this.requests.get(identifier) ?? [];
    const recent = timestamps.filter((t) => now - t < windowMs);
    if (recent.length >= maxRequests) { return false; }
    recent.push(now);
    this.requests.set(identifier, recent);
    return true;
  }
}
```

Timestamps are naturals; `now - t` uses truncated subtraction, which agrees
with the JavaScript comparison for every timestamp `t ≤ now` (timestamps are
recorded at past calls, so never in the future).
-/

structure RateLimiter where
  requests : List (String × List Nat)

/-- The lazy pruning step: keep timestamps with `now - t < windowMs`. -/
def pruneRecent (timestamps : List Nat) (windowMs now : Nat) : List Nat :=
  timestamps.filter (fun t => now - t < windowMs)

/-- `checkLimit(identifier, maxRequests, windowMs)` at wall-clock time
`now`: prune the identifier's history, deny without any state change when
the pruned count reaches `maxRequests`, otherwise record `now` (writing the
pruned history back) and allow. -/
def RateLimiter.checkLimit (rl : RateLimiter) (identifier : String)
    (maxRequests windowMs now : Nat) : Bool × RateLimiter :=
  let timestamps := (mapGet rl.requests identifier).getD []
  let recent := pruneRecent timestamps windowMs now
  if maxRequests ≤ recent.length then
    (false, rl)
  else
    (true, { requests := mapSet rl.requests identifier (recent ++ [now]) })

/-- The empty limiter (`new RateLimiter()`). -/
def RateLimiter.new : RateLimiter := { requests := [] }

/-- A sequence of `checkLimit` calls for one identifier at the given times,
returning the list of verdicts and the final state. -/
def RateLimiter.runChecks (rl : RateLimiter) (identifier : String)
    (maxRequests windowMs : Nat) : List Nat → List Bool × RateLimiter
  | [] => ([], rl)
  | t :: ts =>
      let r := rl.checkLimit identifier maxRequests windowMs t
      let rest := r.2.runChecks identifier maxRequests windowMs ts
      (r.1 :: rest.1, rest.2)

/-!
### Error taxonomy and stage model (src/workflows/crawl/types.ts)

Thrown JavaScript values are modelled by `JsError`: `p-timeout` rejects with
a `TimeoutError` whose message is "Promise timed out after N milliseconds",
and ordinary code throws `Error(message)`.
-/

inductive JsError where
  | timeoutError (milliseconds : Nat)
  | jsError (message : String)
deriving DecidableEq

/-- `err.message` for the two kinds of thrown `Error`. -/
def JsError.message : JsError → String
  | .timeoutError ms => "Promise timed out after " ++ toString ms ++ " milliseconds"
  | .jsError msg => msg

/-- `Metadata`: a record from string keys to possibly-undefined string
values (`Record<string, string | undefined>`), as an association list. -/
def Metadata : Type := List (String × Option String)

/-- `CrawlError`, the discriminated error union of `types.ts`. -/
inductive CrawlError where
  | fetch_failed (status : Nat) (statusText : String) (url : String)
  | timeout (timeoutMs : Nat) (stage : String)
  | parse_failed (message : String) (stage : String)
  | network_error (message : String) (cause : Option String)
  | invalid_html (message : String)
  | unknown (message : String) (cause : Option JsError)

/-- The discriminant string of a `CrawlError` (its `type` field). -/
def CrawlError.typeName : CrawlError → String
  | .fetch_failed .. => "fetch_failed"
  | .timeout .. => "timeout"
  | .parse_failed .. => "parse_failed"
  | .network_error .. => "network_error"
  | .invalid_html .. => "invalid_html"
  | .unknown .. => "unknown"

/-- `CrawlContext`, the discriminated stage union of `types.ts`.  Each
variant extends the previous one (`Omit<Prev, 'stage'> & {...}`) with
exactly one data field; the `stage` discriminant is the constructor.  The
`error` variant's optional `partialData` diagnostic field (reserved, never
populated anywhere in the source) is omitted from the model. -/
inductive CrawlContext where
  | initial (url : String)
  | fetched (url html : String) (title : Option String)
  | metadata_extracted (url html : String) (title : Option String)
      (metadata : Metadata)
  | parsed (url html : String) (title : Option String) (metadata : Metadata)
      (document : String)
  | cleaned (url html : String) (title : Option String) (metadata : Metadata)
      (document cleanedDocument : String)
  | completed (url html : String) (title : Option String) (metadata : Metadata)
      (document cleanedDocument markdown : String)
  | error (url : String) (error : CrawlError)

/-- Type guard `isCompleted` (src/workflows/crawl/guards.ts). -/
def isCompleted : CrawlContext → Bool
  | .completed .. => true
  | _ => false

/-!
### Workflow engine (src/workflow/Workflow.ts)

```ts
async run(initial: TInput, options?: RunOptions): Promise<TOutput> {
  const runners = this.tasks.map((t) => t.run);
  const pipeline = pPipe(...runners);
  const promise = pipeline(initial);
  if (options?.timeoutMs != null) {
    return pTimeout(promise, { milliseconds: options.timeoutMs });
  }
  return promise;
}
```

A task is a named transition on contexts that may throw, plus a duration
(the wall-clock time the task takes, standing in for its asynchronous
execution).  `pPipe` runs the tasks strictly in sequence; the pipeline
promise settles when the last task resolves or the first task rejects.
`pTimeout` rejects with `TimeoutError` if the pipeline has not settled when
the deadline elapses; it does not know which task was in flight.
-/

structure Task where
  name : String
  durMs : Nat
  run : CrawlContext → Except JsError CrawlContext

/-- Sequential execution of tasks from elapsed time `t`, returning the time
at which the pipeline promise settles together with its outcome. -/
def runPipeline : List Task → CrawlContext → Nat → Nat × Except JsError CrawlContext
  | [], ctx, t => (t, .ok ctx)
  | task :: rest, ctx, t =>
      match task.run ctx with
      | .error e => (t + task.durMs, .error e)
      | .ok ctx' => runPipeline rest ctx' (t + task.durMs)

/-- The time at which the whole chain settles. -/
def settleTime (tasks : List Task) (ctx : CrawlContext) : Nat :=
  (runPipeline tasks ctx 0).1

/-- `Workflow.run(initial, options)`: without a deadline the pipeline's own
outcome; with `timeoutMs` the race against `pTimeout`, which rejects with a
generic `TimeoutError` when the deadline elapses before the chain settles. -/
def workflowRun (tasks : List Task) (ctx0 : CrawlContext)
    (timeoutMs : Option Nat) : Except JsError CrawlContext :=
  let r := runPipeline tasks ctx0 0
  match timeoutMs with
  | none => r.2
  | some t => if t < r.1 then .error (.timeoutError t) else r.2

/-!
### `CrawlService` (src/services/CrawlService.ts)
-/

/-- `removeUndefined` (src/workflows/crawl/utils/runtime.ts): drops the
entries whose value is nullish (`entry[1] != null`). -/
def removeUndefined (m : Metadata) : Metadata :=
  List.filter (fun p => p.2.isSome) m

/-- The `{markdown, title?, metadata?}` payload (`CrawlResultData`). -/
structure CrawlResultData where
  markdown : String
  title : Option String
  metadata : Option Metadata

/-- `Result<CrawlResultData, CrawlError>`. -/
inductive CrawlResult where
  | success (data : CrawlResultData)
  | failure (error : CrawlError)

def CrawlResult.isSuccess : CrawlResult → Bool
  | .success _ => true
  | .failure _ => false

/-- The error carried by a failure result, if any. -/
def CrawlResult.errorOf : CrawlResult → Option CrawlError
  | .success _ => none
  | .failure e => some e

def DEFAULT_TIMEOUT_MS : Nat := 30000

/-- `CrawlService.crawlUrl(url)`: run the workflow from
`{stage:'initial', url}` under the configured deadline; a completed context
becomes a success payload (`ctx.metadata` is an object, hence truthy, so
`removeUndefined` is always applied); a non-completed context becomes
`unknown "Workflow incomplete"`; any thrown value is caught and wrapped as
`{type:'unknown', message, cause: err}`. -/
def crawlServiceRun (tasks : List Task) (timeoutMs : Nat) (url : String) :
    CrawlResult :=
  match workflowRun tasks (.initial url) (some timeoutMs) with
  | .ok ctx =>
      match ctx with
      | .completed _ _ title metadata _ _ markdown =>
          .success { markdown := markdown, title := title,
                     metadata := some (removeUndefined metadata) }
      | _ => .failure (.unknown "Workflow incomplete" none)
  | .error e => .failure (.unknown e.message (some e))

/-!
### `CachedCrawlService` (src/services/CachedCrawlService.ts)

```ts
async crawlUrl(url: string): Promise<CrawlResult> {
  const cached = this.cache.get(url);
  if (cached) { return { success: true, data: cached }; }
  const result = await this.crawlService.crawlUrl(url);
  if (result.success) { this.cache.set(url, result.data); }
  return result;
}
```

The inner `crawlService.crawlUrl` call is abstracted by its outcome
`runResult`; `getNow` is the wall-clock time of the cache lookup and
`setNow` the (later) time of the store.
-/

def cachedCrawlUrl (cache : CacheService CrawlResultData) (getNow setNow : Nat)
    (url : String) (runResult : CrawlResult) :
    CrawlResult × CacheService CrawlResultData :=
  match cache.get getNow url with
  | (some v, c1) => (.success v, c1)
  | (none, c1) =>
      match runResult with
      | .success d => (runResult, c1.set setNow url d)
      | .failure _ => (runResult, c1)

/-!
### HTTP status mapping (src/lib/errors.ts and src/index.ts)
-/

/-- `crawlErrorToStatusCode` (src/lib/errors.ts). -/
def crawlErrorToStatusCode : CrawlError → Nat
  | .fetch_failed .. => 502
  | .timeout .. => 504
  | .parse_failed .. => 422
  | .invalid_html .. => 422
  | .network_error .. => 503
  | .unknown .. => 500

/-- The status the `POST /crawl` handler attaches to a pipeline outcome
(src/index.ts): `if (result.success) return c.json(result, 200);
return c.json(result, 500);`. -/
def postCrawlStatus (result : CrawlResult) : Nat :=
  match result with
  | .success _ => 200
  | .failure _ => 500

/-!
### The fetch stage (src/workflows/crawl/tasks/fetchHtml.ts)

```ts
const FETCH_TIMEOUT_MS = 15_000;
const RETRIES = 2;

async function fetchHtmlTask(ctx: Input): Promise<Output> {
  const response = await pRetry(() => fetch(ctx.url, {...}), { retries: RETRIES, ... });
  if (!response.ok) {
    throw new Error(`Fetch failed: ${response.status} ${response.statusText}`);
  }
  const html = await response.text();
  const titleMatch = html.match(/<title[^>]*>([^<]+)<\/title>/i);
  const title = titleMatch ? titleMatch[1].trim() : undefined;
  return { stage: 'fetched', url: ctx.url, html, title };
}
```

The network is an external collaborator: `attempt n` is the outcome of the
`n`-th `fetch` invocation — either the promise resolves with a `Response`
(of any status) or it rejects.  `pRetry` retries only rejected attempts, up
to `RETRIES` additional times; a resolved response — whatever its status —
ends the retry loop.  The body of a resolved 2xx response becomes `html`,
and the fallback-title regex scan is abstracted as a pure function
`extractTitle` of the body (text semantics are out of scope per §1 of the
spec).
-/

structure FetchResponse where
  status : Nat
  statusText : String
  body : String

/-- `Response.ok`: status in the inclusive range 200–299. -/
def FetchResponse.respOk (r : FetchResponse) : Bool :=
  decide (200 ≤ r.status) && decide (r.status ≤ 299)

inductive AttemptOutcome where
  | resolved (r : FetchResponse)
  | rejected (message : String)

def FETCH_RETRIES : Nat := 2

/-- `pRetry` with `fuel` attempts remaining, the current one numbered `n`:
returns the first resolved response (or the last rejection's message once
the attempts are exhausted) together with the number of attempts made. -/
def runAttempts (attempt : Nat → AttemptOutcome) :
    Nat → Nat → Except String FetchResponse × Nat
  | 0, _ => (.error "", 0)
  | fuel + 1, n =>
      match attempt n with
      | .resolved r => (.ok r, 1)
      | .rejected msg =>
          match fuel with
          | 0 => (.error msg, 1)
          | fuel' + 1 =>
              let res := runAttempts attempt (fuel' + 1) (n + 1)
              (res.1, res.2 + 1)

/-- The fetch stage body: retry the `fetch` call, then fail on a non-2xx
response with a plain `Error` whose message is
`"Fetch failed: {status} {statusText}"`, else produce the fetched context. -/
def fetchHtmlRun (attempt : Nat → AttemptOutcome)
    (extractTitle : String → Option String) :
    CrawlContext → Except JsError CrawlContext
  | .initial url =>
      match (runAttempts attempt (FETCH_RETRIES + 1) 1).1 with
      | .error msg => .error (.jsError msg)
      | .ok r =>
          if r.respOk then
            .ok (.fetched url r.body (extractTitle r.body))
          else
            .error (.jsError ("Fetch failed: " ++ toString r.status ++ " "
              ++ r.statusText))
  | _ => .error (.jsError "fetch_html: unexpected stage")

/-- How many `fetch` invocations a run of the fetch stage performs. -/
def fetchAttemptCount (attempt : Nat → AttemptOutcome) : Nat :=
  (runAttempts attempt (FETCH_RETRIES + 1) 1).2

/-!
### The four pure stages

Each task's markup-processing core (cheerio / turndown) is an external
collaborator (spec §1, §4.2); it is abstracted as a pure function argument.
What each transition does with the context's fields — spread the input and
add exactly one field — is taken verbatim from the source.
-/

/-- `extractMetadataTask` (tasks/extractMetadata.ts): on a fetched context,
`{...ctx, stage:'metadata_extracted', metadata}` where `metadata` is
computed from `ctx.html` and the fallback `ctx.title`. -/
def extractMetadataRun (extractMeta : String → Option String → Metadata) :
    CrawlContext → Except JsError CrawlContext
  | .fetched url html title =>
      .ok (.metadata_extracted url html title (extractMeta html title))
  | _ => .error (.jsError "extract_metadata: unexpected stage")

/-- `parseDocumentTask` (tasks/parseDocument.ts): on a metadata-extracted
context, `{...ctx, stage:'parsed', document}` where `document` is the
primary-content region selected from `ctx.html`. -/
def parseDocumentRun (selectContent : String → String) :
    CrawlContext → Except JsError CrawlContext
  | .metadata_extracted url html title metadata =>
      .ok (.parsed url html title metadata (selectContent html))
  | _ => .error (.jsError "parse_document: unexpected stage")

/-- `cleanDocumentTask` (tasks/cleanDocument.ts): on a parsed context,
`{...ctx, stage:'cleaned', cleanedDocument}` where `cleanedDocument` is the
stripped markup of `ctx.document`. -/
def cleanDocumentRun (cleanHtml : String → String) :
    CrawlContext → Except JsError CrawlContext
  | .parsed url html title metadata document =>
      .ok (.cleaned url html title metadata document (cleanHtml document))
  | _ => .error (.jsError "clean_document: unexpected stage")

/-- `convertToMarkdownTask` (tasks/convertToMarkdown.ts): on a cleaned
context, `{...ctx, stage:'completed', markdown}` where `markdown` is the
rendering of `ctx.cleanedDocument`. -/
def convertToMarkdownRun (turndown : String → String) :
    CrawlContext → Except JsError CrawlContext
  | .cleaned url html title metadata document cleanedDocument =>
      .ok (.completed url html title metadata document cleanedDocument
        (turndown cleanedDocument))
  | _ => .error (.jsError "convert_to_markdown: unexpected stage")

/-!
### The data fields of a context

For the monotonic-accumulation invariant the data fields of each variant are
listed as name/value pairs, in declaration order.  The `stage` discriminant
is the tag of the union, not a data field.
-/

inductive FieldVal where
  | str (v : String)
  | optStr (v : Option String)
  | meta (m : Metadata)

def ctxFields : CrawlContext → List (String × FieldVal)
  | .initial url => [("url", .str url)]
  | .fetched url html title =>
      [("url", .str url), ("html", .str html), ("title", .optStr title)]
  | .metadata_extracted url html title metadata =>
      [("url", .str url), ("html", .str html), ("title", .optStr title),
       ("metadata", .meta metadata)]
  | .parsed url html title metadata document =>
      [("url", .str url), ("html", .str html), ("title", .optStr title),
       ("metadata", .meta metadata), ("document", .str document)]
  | .cleaned url html title metadata document cleanedDocument =>
      [("url", .str url), ("html", .str html), ("title", .optStr title),
       ("metadata", .meta metadata), ("document", .str document),
       ("cleanedDocument", .str cleanedDocument)]
  | .completed url html title metadata document cleanedDocument markdown =>
      [("url", .str url), ("html", .str html), ("title", .optStr title),
       ("metadata", .meta metadata), ("document", .str document),
       ("cleanedDocument", .str cleanedDocument), ("markdown", .str markdown)]
  | .error url e => [("url", .str url), ("error", .str e.typeName)]

/-!
### Lemmas about the association-list map
-/

theorem keysOf_nil {V : Type} : keysOf ([] : List (String × V)) = [] := rfl

theorem keysOf_cons {V : Type} (k₀ : String) (v₀ : V)
    (rest : List (String × V)) :
    keysOf ((k₀, v₀) :: rest) = k₀ :: keysOf rest := rfl

theorem mapGet_mapSet_self {V : Type} (m : List (String × V)) (k : String)
    (v : V) : mapGet (mapSet m k v) k = some v := by
  induction m with
  | nil => simp [mapSet, mapGet]
  | cons p rest ih =>
      obtain ⟨k', v'⟩ := p
      by_cases h : k' = k
      · simp [mapSet, mapGet, h]
      · simp [mapSet, mapGet, h, ih]

theorem mapGet_mapSet_ne {V : Type} (m : List (String × V)) (k k' : String)
    (v : V) (h : k' ≠ k) : mapGet (mapSet m k v) k' = mapGet m k' := by
  have hk : ¬ k = k' := fun hh => h hh.symm
  induction m with
  | nil => simp [mapSet, mapGet, hk]
  | cons p rest ih =>
      obtain ⟨k₀, v₀⟩ := p
      by_cases h₀ : k₀ = k
      · subst h₀
        simp [mapSet, mapGet, hk]
      · simp only [mapSet, if_neg h₀, mapGet]
        by_cases h₁ : k₀ = k'
        · simp [h₁]
        · simp [h₁, ih]

theorem keysOf_mapSet_of_mem {V : Type} (m : List (String × V)) (k : String)
    (v : V) (h : k ∈ keysOf m) : keysOf (mapSet m k v) = keysOf m := by
  induction m with
  | nil => simp [keysOf_nil] at h
  | cons p rest ih =>
      obtain ⟨k₀, v₀⟩ := p
      by_cases h₀ : k₀ = k
      · simp [mapSet, h₀, keysOf_cons]
      · rw [keysOf_cons, List.mem_cons] at h
        rcases h with h | h
        · exact absurd h.symm h₀
        · simp only [mapSet, if_neg h₀, keysOf_cons, ih h]

theorem keysOf_mapSet_of_not_mem {V : Type} (m : List (String × V))
    (k : String) (v : V) (h : k ∉ keysOf m) :
    keysOf (mapSet m k v) = keysOf m ++ [k] := by
  induction m with
  | nil => simp [mapSet, keysOf_nil, keysOf_cons]
  | cons p rest ih =>
      obtain ⟨k₀, v₀⟩ := p
      rw [keysOf_cons, List.mem_cons, not_or] at h
      have h₀ : ¬ k₀ = k := fun hh => h.1 hh.symm
      simp only [mapSet, if_neg h₀, keysOf_cons, ih h.2, List.cons_append]

theorem keysOf_mapDelete {V : Type} (m : List (String × V)) (k : String) :
    keysOf (mapDelete m k) = (keysOf m).erase k := by
  induction m with
  | nil => simp [mapDelete, keysOf_nil]
  | cons p rest ih =>
      obtain ⟨k₀, v₀⟩ := p
      by_cases h₀ : k₀ = k
      · subst h₀
        simp [mapDelete, keysOf_cons, List.erase_cons_head]
      · have hbe : ¬ ((k₀ == k) = true) := by simp [h₀]
        simp only [mapDelete, if_neg h₀, keysOf_cons]
        rw [List.erase_cons_tail hbe, ih]

theorem mapGet_eq_none_iff {V : Type} (m : List (String × V)) (k : String) :
    mapGet m k = none ↔ k ∉ keysOf m := by
  induction m with
  | nil => simp [mapGet, keysOf_nil]
  | cons p rest ih =>
      obtain ⟨k₀, v₀⟩ := p
      rw [keysOf_cons, List.mem_cons]
      by_cases h₀ : k₀ = k
      · subst h₀
        simp [mapGet]
      · have h₀' : ¬ k = k₀ := fun hh => h₀ hh.symm
        simp [mapGet, h₀, h₀', ih]

theorem mapGet_isSome_iff {V : Type} (m : List (String × V)) (k : String) :
    (mapGet m k).isSome = true ↔ k ∈ keysOf m := by
  rcases hE : mapGet m k with _ | v
  · rw [mapGet_eq_none_iff] at hE
    simp [hE]
  · have hne : mapGet m k ≠ none := by simp [hE]
    rw [Ne, mapGet_eq_none_iff, not_not] at hne
    simp [hne]

theorem mapGet_mapDelete_self {V : Type} (m : List (String × V)) (k : String)
    (h : (keysOf m).Nodup) : mapGet (mapDelete m k) k = none := by
  rw [mapGet_eq_none_iff, keysOf_mapDelete]
  exact h.not_mem_erase

theorem mapGet_mapDelete_ne {V : Type} (m : List (String × V)) (k k' : String)
    (h : k' ≠ k) : mapGet (mapDelete m k) k' = mapGet m k' := by
  induction m with
  | nil => simp [mapDelete]
  | cons p rest ih =>
      obtain ⟨k₀, v₀⟩ := p
      by_cases h₀ : k₀ = k
      · subst h₀
        have : ¬ k₀ = k' := fun hh => h (hh.symm)
        simp [mapDelete, mapGet, this]
      · simp only [mapDelete, if_neg h₀, mapGet]
        by_cases h₁ : k₀ = k'
        · simp [h₁]
        · simp [h₁, ih]

/-!
### Case equations for the cache operations
-/

theorem CacheService.set_eq_of_mem {V : Type} (c : CacheService V)
    (now : Nat) (k : String) (v : V) (hk : (mapGet c.cache k).isSome) :
    c.set now k v =
      { c with cache := mapSet c.cache k ⟨v, now + c.ttlMs⟩,
               order := c.order.erase k ++ [k] } := by
  have hcond : ¬ ((mapGet c.cache k).isNone = true ∧
      c.maxSize ≤ c.order.length) := by
    intro hc
    rw [Option.isNone_iff_eq_none] at hc
    rw [hc.1] at hk
    simp at hk
  unfold CacheService.set
  rw [if_neg hcond]

theorem CacheService.set_eq_of_new_spare {V : Type} (c : CacheService V)
    (now : Nat) (k : String) (v : V)
    (hspare : ¬ c.maxSize ≤ c.order.length) :
    c.set now k v =
      { c with cache := mapSet c.cache k ⟨v, now + c.ttlMs⟩,
               order := c.order.erase k ++ [k] } := by
  have hcond : ¬ ((mapGet c.cache k).isNone = true ∧
      c.maxSize ≤ c.order.length) := fun hc => hspare hc.2
  unfold CacheService.set
  rw [if_neg hcond]

theorem CacheService.set_eq_of_new_full {V : Type} (c : CacheService V)
    (now : Nat) (k : String) (v : V) (oldest : String) (rest : List String)
    (hknone : mapGet c.cache k = none)
    (hfull : c.maxSize ≤ c.order.length)
    (hord : c.order = oldest :: rest) :
    c.set now k v =
      { c with cache := mapSet (mapDelete c.cache oldest) k ⟨v, now + c.ttlMs⟩,
               order := rest.erase k ++ [k] } := by
  have hcond : (mapGet c.cache k).isNone = true ∧
      c.maxSize ≤ c.order.length := ⟨by simp [hknone], hfull⟩
  unfold CacheService.set
  rw [if_pos hcond, hord]

/-!
### The cache well-formedness invariant
-/

theorem CacheService.Inv.size_eq_order_length {V : Type}
    {c : CacheService V} (h : c.Inv) : c.size = c.order.length := by
  have := h.1.length_eq
  simpa [CacheService.size, keysOf] using this

theorem CacheService.new_Inv (V : Type) (ttlMs maxSize : Nat) :
    (CacheService.new V ttlMs maxSize).Inv := by
  refine ⟨.nil, .nil, ?_⟩
  simp [CacheService.new]

theorem CacheService.Inv.delete {V : Type} {c : CacheService V} (h : c.Inv)
    (k : String) : ((c.delete k).2).Inv := by
  obtain ⟨hperm, hnodup, hlen⟩ := h
  unfold CacheService.delete
  by_cases hk : (mapGet c.cache k).isSome
  · rw [if_pos hk]
    refine ⟨?_, hnodup.erase k, ?_⟩
    · rw [keysOf_mapDelete]
      exact hperm.erase k
    · exact le_trans (List.length_erase_le k c.order) hlen
  · rw [if_neg hk]
    exact ⟨hperm, hnodup, hlen⟩

theorem CacheService.Inv.get {V : Type} {c : CacheService V} (h : c.Inv)
    (now : Nat) (k : String) : ((c.get now k).2).Inv := by
  unfold CacheService.get
  rcases hE : mapGet c.cache k with _ | entry
  · exact h
  · dsimp only
    split
    · exact h.delete k
    · exact h

theorem CacheService.Inv.set {V : Type} {c : CacheService V} (h : c.Inv)
    (hmax : 1 ≤ c.maxSize) (now : Nat) (k : String) (v : V) :
    (c.set now k v).Inv := by
  obtain ⟨hperm, hnodup, hlen⟩ := h
  by_cases hk : (mapGet c.cache k).isSome
  · -- existing key: recency refresh, no eviction, size unchanged
    have hkmem : k ∈ keysOf c.cache := (mapGet_isSome_iff _ _).mp hk
    have hkord : k ∈ c.order := hperm.mem_iff.mp hkmem
    rw [CacheService.set_eq_of_mem c now k v hk]
    refine ⟨?_, ?_, ?_⟩ <;> dsimp only
    · rw [keysOf_mapSet_of_mem _ _ _ hkmem]
      have h1 : c.order.Perm (k :: c.order.erase k) :=
        List.perm_cons_erase hkord
      have h2 : (k :: c.order.erase k).Perm (c.order.erase k ++ [k]) := by
        rw [← List.singleton_append]
        exact List.perm_append_comm
      exact (hperm.trans h1).trans h2
    · rw [List.nodup_append]
      refine ⟨hnodup.erase k, List.nodup_singleton k, ?_⟩
      intro a ha
      rw [List.mem_singleton]
      intro hak
      subst hak
      exact hnodup.not_mem_erase ha
    · rw [List.length_append, List.length_erase_of_mem hkord]
      have hpos : 0 < c.order.length := List.length_pos.mpr
        (List.ne_nil_of_mem hkord)
      simp only [List.length_singleton]
      omega
  · -- new key
    have hknone : mapGet c.cache k = none := by
      rcases hE : mapGet c.cache k with _ | e
      · rfl
      · rw [hE] at hk
        simp at hk
    have hkmem : k ∉ keysOf c.cache := (mapGet_eq_none_iff _ _).mp hknone
    have hkord : k ∉ c.order := fun hh => hkmem (hperm.mem_iff.mpr hh)
    by_cases hfull : c.maxSize ≤ c.order.length
    · -- at capacity: evict the head of `order`
      rcases hord : c.order with _ | ⟨oldest, rest⟩
      · rw [hord] at hfull
        simp at hfull
        omega
      · rw [CacheService.set_eq_of_new_full c now k v oldest rest hknone hfull
          hord]
        have hkrest : k ∉ rest := fun hh => hkord (hord ▸ List.mem_cons_of_mem
          oldest hh)
        have hrest_nodup : rest.Nodup := by
          rw [hord] at hnodup
          exact hnodup.of_cons
        have hperm' : (keysOf (mapDelete c.cache oldest)).Perm rest := by
          rw [keysOf_mapDelete]
          have h1 : ((keysOf c.cache).erase oldest).Perm (c.order.erase oldest) :=
            hperm.erase oldest
          have h2 : c.order.erase oldest = rest := by
            rw [hord, List.erase_cons_head]
          rw [h2] at h1
          exact h1
        have hknotdel : k ∉ keysOf (mapDelete c.cache oldest) := by
          rw [keysOf_mapDelete]
          intro hh
          exact hkmem (List.mem_of_mem_erase hh)
        refine ⟨?_, ?_, ?_⟩ <;> dsimp only
        · rw [keysOf_mapSet_of_not_mem _ _ _ hknotdel,
            List.erase_of_not_mem hkrest]
          exact hperm'.append_right [k]
        · rw [List.erase_of_not_mem hkrest, List.nodup_append]
          refine ⟨hrest_nodup, List.nodup_singleton k, ?_⟩
          intro a ha
          rw [List.mem_singleton]
          intro hak
          subst hak
          exact hkrest ha
        · rw [List.erase_of_not_mem hkrest, List.length_append]
          have : rest.length + 1 = c.order.length := by rw [hord]; rfl
          simp only [List.length_singleton]
          omega
    · -- spare capacity: plain insert at the back
      rw [CacheService.set_eq_of_new_spare c now k v hfull]
      refine ⟨?_, ?_, ?_⟩ <;> dsimp only <;> rw [List.erase_of_not_mem hkord]
      · rw [keysOf_mapSet_of_not_mem _ _ _ hkmem]
        exact hperm.append_right [k]
      · rw [List.nodup_append]
        refine ⟨hnodup, List.nodup_singleton k, ?_⟩
        intro a ha
        rw [List.mem_singleton]
        intro hak
        subst hak
        exact hkord ha
      · rw [List.length_append]
        simp only [List.length_singleton]
        omega

/-!
### Operation sequences on the cache
-/

theorem CacheService.delete_maxSize {V : Type} (c : CacheService V)
    (k : String) : ((c.delete k).2).maxSize = c.maxSize := by
  unfold CacheService.delete
  split <;> rfl

theorem CacheService.get_snd_cases {V : Type} (c : CacheService V)
    (now : Nat) (k : String) :
    (c.get now k).2 = c ∨ (c.get now k).2 = (c.delete k).2 := by
  unfold CacheService.get
  rcases mapGet c.cache k with _ | entry
  · exact .inl rfl
  · dsimp only
    split
    · exact .inr rfl
    · exact .inl rfl

theorem CacheService.get_maxSize {V : Type} (c : CacheService V)
    (now : Nat) (k : String) : ((c.get now k).2).maxSize = c.maxSize := by
  rcases CacheService.get_snd_cases c now k with h | h <;> rw [h]
  exact CacheService.delete_maxSize c k

theorem CacheService.set_maxSize {V : Type} (c : CacheService V)
    (now : Nat) (k : String) (v : V) :
    (c.set now k v).maxSize = c.maxSize := by
  unfold CacheService.set
  dsimp only
  split
  · split <;> rfl
  · rfl

theorem applyOp_maxSize {V : Type} (c : CacheService V) (op : CacheOp V) :
    (applyOp c op).maxSize = c.maxSize := by
  cases op with
  | get now k => exact CacheService.get_maxSize c now k
  | set now k v => exact CacheService.set_maxSize c now k v
  | del k => exact CacheService.delete_maxSize c k

theorem CacheService.Inv.applyOp {V : Type} {c : CacheService V} (h : c.Inv)
    (hmax : 1 ≤ c.maxSize) (op : CacheOp V) : (QuickCrawl.applyOp c op).Inv := by
  cases op with
  | get now k => exact h.get now k
  | set now k v => exact h.set hmax now k v
  | del k => exact h.delete k

theorem runOps_maxSize {V : Type} (c : CacheService V) (ops : List (CacheOp V)) :
    (runOps c ops).maxSize = c.maxSize := by
  induction ops generalizing c with
  | nil => rfl
  | cons op rest ih =>
      show (runOps (applyOp c op) rest).maxSize = c.maxSize
      rw [ih, applyOp_maxSize]

theorem CacheService.Inv.runOps {V : Type} {c : CacheService V} (h : c.Inv)
    (hmax : 1 ≤ c.maxSize) (ops : List (CacheOp V)) :
    (QuickCrawl.runOps c ops).Inv := by
  induction ops generalizing c with
  | nil => exact h
  | cons op rest ih =>
      show (QuickCrawl.runOps (QuickCrawl.applyOp c op) rest).Inv
      exact ih (h.applyOp hmax op) (by rw [applyOp_maxSize]; exact hmax)

/-!
### Filling the cache with fresh keys, and eviction at capacity
-/

theorem runOps_cons {V : Type} (c : CacheService V) (op : CacheOp V)
    (ops : List (CacheOp V)) : runOps c (op :: ops) = runOps (applyOp c op) ops :=
  rfl

theorem set_spare_order {V : Type} (c : CacheService V) (now : Nat)
    (k : String) (v : V) (hkord : k ∉ c.order)
    (hspare : ¬ c.maxSize ≤ c.order.length) :
    (c.set now k v).order = c.order ++ [k] := by
  rw [CacheService.set_eq_of_new_spare c now k v hspare]
  dsimp only
  rw [List.erase_of_not_mem hkord]

theorem runOps_fill {V : Type} (vs : String → V) (tm : String → Nat) :
    ∀ (ks : List String) (c : CacheService V), c.Inv → ks.Nodup →
    (∀ x ∈ ks, x ∉ c.order) → c.order.length + ks.length ≤ c.maxSize →
    (runOps c (ks.map (fun k => CacheOp.set (tm k) k (vs k)))).order
      = c.order ++ ks ∧
    (runOps c (ks.map (fun k => CacheOp.set (tm k) k (vs k)))).Inv := by
  intro ks
  induction ks with
  | nil =>
      intro c h _ _ _
      exact ⟨by simp [runOps], h⟩
  | cons k rest ih =>
      intro c h hnd hnotin hlen
      have hkord : k ∉ c.order := hnotin k (List.mem_cons_self k rest)
      have hknone : mapGet c.cache k = none :=
        (mapGet_eq_none_iff _ _).mpr (fun hh => hkord (h.1.mem_iff.mp hh))
      have hspare : ¬ c.maxSize ≤ c.order.length := by
        simp only [List.length_cons] at hlen
        omega
      have hmax : 1 ≤ c.maxSize := by
        simp only [List.length_cons] at hlen
        omega
      have hord' : (c.set (tm k) k (vs k)).order = c.order ++ [k] :=
        set_spare_order c (tm k) k (vs k) hkord hspare
      have hInv' : (c.set (tm k) k (vs k)).Inv := h.set hmax (tm k) k (vs k)
      have hmax' : (c.set (tm k) k (vs k)).maxSize = c.maxSize :=
        CacheService.set_maxSize c (tm k) k (vs k)
      rw [List.map_cons, runOps_cons]
      have hstep : applyOp c (CacheOp.set (tm k) k (vs k))
          = c.set (tm k) k (vs k) := rfl
      rw [hstep]
      have hrec := ih (c.set (tm k) k (vs k)) hInv' hnd.of_cons
        (by
          intro x hx
          rw [hord', List.mem_append, List.mem_singleton]
          rintro (hx1 | hx2)
          · exact hnotin x (List.mem_cons_of_mem k hx) hx1
          · subst hx2
            exact (List.nodup_cons.mp hnd).1 hx)
        (by
          rw [hord', hmax', List.length_append, List.length_singleton]
          simp only [List.length_cons] at hlen
          omega)
      rw [hrec.1, hord', List.append_assoc, List.singleton_append]
      exact ⟨rfl, hrec.2⟩

theorem set_full_evicts {V : Type} (c : CacheService V) (h : c.Inv)
    (k : String) (hkord : k ∉ c.order) (oldest : String) (rest : List String)
    (hord : c.order = oldest :: rest) (hfull : c.maxSize ≤ c.order.length)
    (now : Nat) (v : V) :
    (c.set now k v).order = rest ++ [k] ∧
    mapGet (c.set now k v).cache oldest = none ∧
    (∀ x ∈ rest, mapGet (c.set now k v).cache x = mapGet c.cache x) ∧
    mapGet (c.set now k v).cache k = some ⟨v, now + c.ttlMs⟩ := by
  obtain ⟨hperm, hnodup, hlen⟩ := h
  have hknone : mapGet c.cache k = none :=
    (mapGet_eq_none_iff _ _).mpr (fun hh => hkord (hperm.mem_iff.mp hh))
  have hkrest : k ∉ rest := fun hh =>
    hkord (hord ▸ List.mem_cons_of_mem oldest hh)
  have hkoldest : oldest ≠ k := by
    intro hh
    subst hh
    exact hkord (hord ▸ List.mem_cons_self oldest rest)
  have hkeysnd : (keysOf c.cache).Nodup := hperm.nodup_iff.mpr hnodup
  have holdrest : oldest ∉ rest := by
    rw [hord] at hnodup
    exact (List.nodup_cons.mp hnodup).1
  rw [CacheService.set_eq_of_new_full c now k v oldest rest hknone hfull hord]
  dsimp only
  refine ⟨?_, ?_, ?_, ?_⟩
  · rw [List.erase_of_not_mem hkrest]
  · rw [mapGet_mapSet_ne _ _ _ _ hkoldest]
    exact mapGet_mapDelete_self _ _ hkeysnd
  · intro x hx
    have hxk : x ≠ k := fun hh => hkrest (hh ▸ hx)
    have hxold : x ≠ oldest := fun hh => holdrest (hh ▸ hx)
    rw [mapGet_mapSet_ne _ _ _ _ hxk, mapGet_mapDelete_ne _ _ _ hxold]
  · exact mapGet_mapSet_self _ _ _

/-!
### Claim C2: capacity invariant and LRU eviction
-/

/-- **C2, counterexample.** A cache constructed with maximum size 0 still
stores the entry on `set`: after one operation the number of stored entries
(1) exceeds the configured maximum (0), because `order.shift()` on the empty
recency array yields `undefined` and no eviction happens before the insert.
So the claim is false for a cache constructed with `maxSize = 0`. -/
theorem cache_capacity_fails_at_maxSize_zero :
    (runOps (CacheService.new String 100 0) [CacheOp.set 0 "a" "v"]).maxSize
      < (runOps (CacheService.new String 100 0) [CacheOp.set 0 "a" "v"]).size := by
  decide

/-- **C2** (amended: for every cache constructed with maximum size `M ≥ 1`).
(1) After any finite sequence of get/set/delete operations starting from a
fresh cache, the number of stored entries never exceeds `M`.
(2) Inserting `M+1` distinct keys into a fresh cache evicts exactly one
key — the least-recently-used (first-inserted) one: afterwards the recency
order is the insertion order without its head, and a key is stored iff it is
one of the last `M` inserted. -/
theorem cache_capacity_and_lru_eviction (V : Type) :
    (∀ (ttlMs maxSize : Nat) (ops : List (CacheOp V)), 1 ≤ maxSize →
      (runOps (CacheService.new V ttlMs maxSize) ops).size ≤ maxSize) ∧
    (∀ (ttlMs maxSize : Nat) (vs : String → V) (tm : String → Nat)
      (ks0 : List String) (klast : String), 1 ≤ maxSize →
      (ks0 ++ [klast]).Nodup → ks0.length = maxSize →
      (runOps (CacheService.new V ttlMs maxSize)
          ((ks0 ++ [klast]).map (fun k => CacheOp.set (tm k) k (vs k)))).order
        = ks0.drop 1 ++ [klast] ∧
      ∀ x, ((mapGet (runOps (CacheService.new V ttlMs maxSize)
          ((ks0 ++ [klast]).map (fun k => CacheOp.set (tm k) k (vs k)))).cache
          x).isSome = true ↔ x ∈ ks0.drop 1 ++ [klast])) := by
  constructor
  · intro ttlMs maxSize ops hmax
    have hInv : (runOps (CacheService.new V ttlMs maxSize) ops).Inv :=
      (CacheService.new_Inv V ttlMs maxSize).runOps hmax ops
    have hsz := hInv.size_eq_order_length
    have hcap := hInv.2.2
    have hms := runOps_maxSize (CacheService.new V ttlMs maxSize) ops
    rw [hsz]
    calc (runOps (CacheService.new V ttlMs maxSize) ops).order.length
        ≤ (runOps (CacheService.new V ttlMs maxSize) ops).maxSize := hcap
      _ = maxSize := hms
  · intro ttlMs maxSize vs tm ks0 klast hmax hnd hlen
    have hnd' := List.nodup_append.mp hnd
    have hks0nd : ks0.Nodup := hnd'.1
    have hdisj : klast ∉ ks0 := by
      intro hh
      exact hnd'.2.2 hh (List.mem_singleton_self klast)
    rw [List.map_append, List.map_singleton]
    rw [show runOps (CacheService.new V ttlMs maxSize)
        ((ks0.map (fun k => CacheOp.set (tm k) k (vs k)))
          ++ [CacheOp.set (tm klast) klast (vs klast)])
      = runOps (runOps (CacheService.new V ttlMs maxSize)
          (ks0.map (fun k => CacheOp.set (tm k) k (vs k))))
          [CacheOp.set (tm klast) klast (vs klast)]
      from List.foldl_append ..]
    set c1 := runOps (CacheService.new V ttlMs maxSize)
      (ks0.map (fun k => CacheOp.set (tm k) k (vs k))) with hc1
    have hfill := runOps_fill vs tm ks0 (CacheService.new V ttlMs maxSize)
      (CacheService.new_Inv V ttlMs maxSize) hks0nd
      (by intro x _ hx; exact absurd hx (List.not_mem_nil x))
      (by simp [CacheService.new]; omega)
    have hordc1 : c1.order = ks0 := by
      rw [← hc1] at hfill
      simpa [CacheService.new] using hfill.1
    have hInvc1 : c1.Inv := by
      rw [← hc1] at hfill
      exact hfill.2
    have hmsc1 : c1.maxSize = maxSize := by
      rw [hc1]
      exact runOps_maxSize ..
    rcases hks0 : ks0 with _ | ⟨oldest, rest⟩
    · rw [hks0] at hlen
      simp at hlen
      omega
    · have hklast_ord : klast ∉ c1.order := by
        rw [hordc1]
        exact hdisj
      have hfull : c1.maxSize ≤ c1.order.length := by
        rw [hmsc1, hordc1, hlen]
      have hev := set_full_evicts c1 hInvc1 klast hklast_ord oldest rest
        (by rw [hordc1, hks0]) hfull (tm klast) (vs klast)
      have hInvF : (c1.set (tm klast) klast (vs klast)).Inv :=
        hInvc1.set (by rw [hmsc1]; exact hmax) (tm klast) klast (vs klast)
      have hstep : runOps c1 [CacheOp.set (tm klast) klast (vs klast)]
          = c1.set (tm klast) klast (vs klast) := rfl
      rw [hstep]
      constructor
      · rw [hev.1, List.drop_one, List.tail_cons]
      · intro x
        rw [mapGet_isSome_iff, List.drop_one, List.tail_cons]
        have hmem := hInvF.1.mem_iff (a := x)
        rw [hev.1] at hmem
        exact hmem

/-- Witness for `cache_capacity_and_lru_eviction` at `M = 2`: three
operations keep the size within 2, and inserting `["a","b","c"]` leaves
recency order `["b","c"]` (the LRU key `"a"` was evicted). -/
theorem cache_capacity_and_lru_eviction_witness :
    (runOps (CacheService.new Nat 5 2)
        [CacheOp.set 0 "a" 1, CacheOp.set 0 "b" 2, CacheOp.set 0 "c" 3]).size
      ≤ 2 ∧
    (runOps (CacheService.new Nat 5 2)
        ((["a", "b"] ++ ["c"]).map (fun k => CacheOp.set 0 k 7))).order
      = ["a", "b"].drop 1 ++ ["c"] :=
  ⟨(cache_capacity_and_lru_eviction Nat).1 5 2
      [CacheOp.set 0 "a" 1, CacheOp.set 0 "b" 2, CacheOp.set 0 "c" 3]
      (by decide),
   ((cache_capacity_and_lru_eviction Nat).2 5 2 (fun _ => 7) (fun _ => 0)
      ["a", "b"] "c" (by decide) (by decide) (by decide)).1⟩

/-!
### Claims C3 and C4: TTL reads and recency
-/

theorem CacheService.set_cache_get_self {V : Type} (c : CacheService V)
    (now : Nat) (k : String) (v : V) :
    mapGet (c.set now k v).cache k = some ⟨v, now + c.ttlMs⟩ := by
  unfold CacheService.set
  dsimp only
  exact mapGet_mapSet_self ..

theorem CacheService.get_hit {V : Type} (c : CacheService V) (now : Nat)
    (k : String) (entry : CacheEntry V) (hE : mapGet c.cache k = some entry)
    (hfresh : ¬ entry.expiresAt < now) :
    c.get now k = (some entry.value, c) := by
  unfold CacheService.get
  rw [hE]
  dsimp only
  rw [if_neg hfresh]

theorem CacheService.get_expired {V : Type} (c : CacheService V) (now : Nat)
    (k : String) (entry : CacheEntry V) (hE : mapGet c.cache k = some entry)
    (hexp : entry.expiresAt < now) :
    c.get now k = (none, (c.delete k).2) := by
  unfold CacheService.get
  rw [hE]
  dsimp only
  rw [if_pos hexp]

theorem CacheService.delete_removes {V : Type} (c : CacheService V)
    (k : String) (hnd : (keysOf c.cache).Nodup) :
    mapGet ((c.delete k).2).cache k = none := by
  unfold CacheService.delete
  by_cases hk : (mapGet c.cache k).isSome
  · rw [if_pos hk]
    exact mapGet_mapDelete_self _ _ hnd
  · rw [if_neg hk]
    dsimp only
    rcases hE : mapGet c.cache k with _ | e
    · rfl
    · rw [hE] at hk
      simp at hk

/-- **C3.** Immediately after `set(k, v)` at time `now`, a `get(k)` at a
time `now'` not past `now + TTL` returns `v` (and, the code being lazier
than the claim, even at exactly `now + TTL`); a `get(k)` after the TTL has
elapsed (`now' > now + TTL`) returns absent and removes `k` from the cache
as a side effect. -/
theorem cache_set_then_get_ttl {V : Type} (c : CacheService V) (hInv : c.Inv)
    (hmax : 1 ≤ c.maxSize) (now : Nat) (k : String) (v : V) (now' : Nat) :
    (now' ≤ now + c.ttlMs →
      (c.set now k v).get now' k = (some v, c.set now k v)) ∧
    (now + c.ttlMs < now' →
      ((c.set now k v).get now' k).1 = none ∧
      mapGet (((c.set now k v).get now' k).2).cache k = none) := by
  have hE := CacheService.set_cache_get_self c now k v
  have hInvSet : (c.set now k v).Inv := hInv.set hmax now k v
  have hnd : (keysOf (c.set now k v).cache).Nodup :=
    hInvSet.1.nodup_iff.mpr hInvSet.2.1
  constructor
  · intro hfresh
    exact CacheService.get_hit (c.set now k v) now' k _ hE (by
      dsimp only
      omega)
  · intro hexp
    have hget := CacheService.get_expired (c.set now k v) now' k _ hE (by
      dsimp only
      exact hexp)
    rw [hget]
    exact ⟨rfl, CacheService.delete_removes _ _ hnd⟩

/-- Witness for `cache_set_then_get_ttl`: with TTL 300000, a `set` at time 0
followed by a `get` at time 5 returns the value; a `get` at time 300001
returns absent and the key is gone. -/
theorem cache_set_then_get_ttl_witness :
    ((CacheService.new String 300000 100).set 0 "k" "v").get 5 "k"
      = (some "v", (CacheService.new String 300000 100).set 0 "k" "v") ∧
    ((((CacheService.new String 300000 100).set 0 "k" "v").get 300001 "k").1
      = none) :=
  ⟨(cache_set_then_get_ttl (CacheService.new String 300000 100)
      (CacheService.new_Inv String 300000 100) (by decide) 0 "k" "v" 5).1
      (by decide),
   ((cache_set_then_get_ttl (CacheService.new String 300000 100)
      (CacheService.new_Inv String 300000 100) (by decide) 0 "k" "v" 300001).2
      (by decide)).1⟩

/-- **C4, counterexample.** `get` does not refresh recency: with capacity 2,
after `set a; set b; get a; set c` the evicted key is `a` — the key that was
just read — not `b`.  Under the claim, the hit on `a` would have made `a`
the most-recently-used entry, so `b` would have been evicted instead. -/
theorem cache_get_hit_does_not_refresh_recency :
    mapGet (runOps (CacheService.new String 1000 2)
        [CacheOp.set 0 "a" "x", CacheOp.set 0 "b" "y",
         CacheOp.get 0 "a", CacheOp.set 0 "c" "z"]).cache "a" = none ∧
    (mapGet (runOps (CacheService.new String 1000 2)
        [CacheOp.set 0 "a" "x", CacheOp.set 0 "b" "y",
         CacheOp.get 0 "a", CacheOp.set 0 "c" "z"]).cache "b").isSome
      = true := by
  constructor <;> rfl

/-- **C4** (amended).  A `get(k)` hit on a present, unexpired key returns
the stored value and leaves the entire cache state unchanged: recency is
*not* refreshed on a read (the `order` array is only modified by `set` and
`delete`), and the entry's `expiresAt` is untouched. -/
theorem cache_get_hit_state_unchanged {V : Type} (c : CacheService V)
    (now : Nat) (k : String) (entry : CacheEntry V)
    (hE : mapGet c.cache k = some entry) (hfresh : ¬ entry.expiresAt < now) :
    c.get now k = (some entry.value, c) :=
  CacheService.get_hit c now k entry hE hfresh

/-- Witness for `cache_get_hit_state_unchanged` on a concrete one-entry
cache. -/
theorem cache_get_hit_state_unchanged_witness :
    ((CacheService.new String 1000 2).set 0 "a" "x").get 5 "a"
      = (some "x", (CacheService.new String 1000 2).set 0 "a" "x") :=
  cache_get_hit_state_unchanged _ 5 "a" ⟨"x", 1000⟩ rfl (by decide)

/-!
### Claim C6: only fully successful runs are cached
-/

theorem CacheService.get_miss_removes {V : Type} (c : CacheService V)
    (hnd : (keysOf c.cache).Nodup) (now : Nat) (k : String)
    (hmiss : (c.get now k).1 = none) :
    mapGet ((c.get now k).2).cache k = none := by
  rcases hE : mapGet c.cache k with _ | entry
  · have hg : c.get now k = (none, c) := by
      unfold CacheService.get
      rw [hE]
    rw [hg]
    exact hE
  · by_cases hexp : entry.expiresAt < now
    · rw [CacheService.get_expired c now k entry hE hexp]
      exact CacheService.delete_removes c k hnd
    · rw [CacheService.get_hit c now k entry hE hexp] at hmiss
      simp at hmiss

/-- **C6.** If the cached crawl operation returns a failure, the cache holds
no entry for the URL afterwards (a pre-existing expired entry has been
dropped by the read, and nothing was stored); conversely, if an entry for
the URL is present afterwards, the operation returned success — only fully
successful runs are cached. -/
theorem cached_crawl_failure_leaves_no_entry
    (cache : CacheService CrawlResultData) (hInv : cache.Inv)
    (getNow setNow : Nat) (url : String) (runResult : CrawlResult) :
    ((cachedCrawlUrl cache getNow setNow url runResult).1.isSuccess = false →
      mapGet ((cachedCrawlUrl cache getNow setNow url runResult).2).cache url
        = none) ∧
    ((mapGet ((cachedCrawlUrl cache getNow setNow url runResult).2).cache
        url).isSome = true →
      (cachedCrawlUrl cache getNow setNow url runResult).1.isSuccess = true) := by
  have hnd : (keysOf cache.cache).Nodup := hInv.1.nodup_iff.mpr hInv.2.1
  unfold cachedCrawlUrl
  rcases hg : cache.get getNow url with ⟨o, c1⟩
  rcases o with _ | v
  · rcases runResult with d | e
    · dsimp only
      constructor
      · intro hcontra
        simp [CrawlResult.isSuccess] at hcontra
      · intro _
        rfl
    · dsimp only
      have hmiss : (cache.get getNow url).1 = none := by rw [hg]
      have hrm := CacheService.get_miss_removes cache hnd getNow url hmiss
      rw [hg] at hrm
      constructor
      · intro _
        exact hrm
      · intro hsome
        rw [hrm] at hsome
        simp at hsome
  · dsimp only
    constructor
    · intro hcontra
      simp [CrawlResult.isSuccess] at hcontra
    · intro _
      rfl

/-- Witness for `cached_crawl_failure_leaves_no_entry`: a failing run
against an empty cache stores nothing for the URL. -/
theorem cached_crawl_failure_leaves_no_entry_witness :
    mapGet ((cachedCrawlUrl (CacheService.new CrawlResultData 300000 100)
        0 1 "https://example.com"
        (.failure (.unknown "boom" none))).2).cache "https://example.com"
      = none :=
  (cached_crawl_failure_leaves_no_entry
      (CacheService.new CrawlResultData 300000 100)
      (CacheService.new_Inv CrawlResultData 300000 100) 0 1
      "https://example.com" (.failure (.unknown "boom" none))).1 rfl

/-!
### Rate limiter lemmas
-/

theorem checkLimit_allowed_iff (rl : RateLimiter) (id : String)
    (maxR W now : Nat) :
    (rl.checkLimit id maxR W now).1 = true ↔
      (pruneRecent ((mapGet rl.requests id).getD []) W now).length < maxR := by
  unfold RateLimiter.checkLimit
  dsimp only
  split
  · rename_i hle
    constructor
    · intro h
      simp at h
    · intro hlt
      exact absurd hlt (not_lt.mpr hle)
  · rename_i hlt
    constructor
    · intro _
      omega
    · intro _
      rfl

theorem checkLimit_allowed_state (rl : RateLimiter) (id : String)
    (maxR W now : Nat) (h : (rl.checkLimit id maxR W now).1 = true) :
    (rl.checkLimit id maxR W now).2 =
      ⟨mapSet rl.requests id
        (pruneRecent ((mapGet rl.requests id).getD []) W now ++ [now])⟩ := by
  unfold RateLimiter.checkLimit at *
  dsimp only at *
  split at h
  · simp at h
  · rename_i hc
    rw [if_neg hc]

theorem checkLimit_denied_state (rl : RateLimiter) (id : String)
    (maxR W now : Nat) (h : (rl.checkLimit id maxR W now).1 = false) :
    (rl.checkLimit id maxR W now).2 = rl := by
  unfold RateLimiter.checkLimit at *
  dsimp only at *
  split at h
  · rename_i hc
    rw [if_pos hc]
  · simp at h

theorem length_filter_lt_of_mem_not {α : Type} (l : List α) (p : α → Bool)
    (a : α) (ha : a ∈ l) (hpa : p a = false) :
    (l.filter p).length < l.length := by
  induction l with
  | nil => cases ha
  | cons x xs ih =>
      rcases List.mem_cons.mp ha with rfl | hx
      · rw [List.filter_cons, hpa]
        exact Nat.lt_succ_of_le (List.length_filter_le p xs)
      · rw [List.filter_cons]
        cases hpx : p x
        · exact Nat.lt_succ_of_lt (ih hx)
        · exact Nat.succ_lt_succ (ih hx)

theorem runChecks_cons (rl : RateLimiter) (id : String) (maxR W t : Nat)
    (ts : List Nat) :
    rl.runChecks id maxR W (t :: ts) =
      (((rl.checkLimit id maxR W t).1 ::
        ((rl.checkLimit id maxR W t).2.runChecks id maxR W ts).1),
       ((rl.checkLimit id maxR W t).2.runChecks id maxR W ts).2) :=
  rfl

theorem runChecks_all_allowed (id : String) (maxR W : Nat) :
    ∀ (ts rs : List Nat) (rl : RateLimiter),
    (mapGet rl.requests id).getD [] = rs →
    (∀ t ∈ ts, ∀ r, (r ∈ rs ∨ r ∈ ts) → t - r < W) →
    rs.length + ts.length ≤ maxR →
    (rl.runChecks id maxR W ts).1 = List.replicate ts.length true ∧
    (mapGet ((rl.runChecks id maxR W ts).2).requests id).getD [] = rs ++ ts := by
  intro ts
  induction ts with
  | nil =>
      intro rs rl h _ _
      exact ⟨rfl, by simpa using h⟩
  | cons t ts' ih =>
      intro rs rl hrs hwin hlen
      have hfilter : pruneRecent rs W t = rs := by
        unfold pruneRecent
        apply List.filter_eq_self.mpr
        intro r hr
        have := hwin t (List.mem_cons_self t ts') r (Or.inl hr)
        simpa using this
      have hallow : rs.length < maxR := by
        simp only [List.length_cons] at hlen
        omega
      have hcheck : rl.checkLimit id maxR W t
          = (true, ⟨mapSet rl.requests id (rs ++ [t])⟩) := by
        unfold RateLimiter.checkLimit
        dsimp only
        rw [hrs, hfilter, if_neg (not_le.mpr hallow)]
      have hrs' : (mapGet (⟨mapSet rl.requests id (rs ++ [t])⟩ :
          RateLimiter).requests id).getD [] = rs ++ [t] := by
        dsimp only
        rw [mapGet_mapSet_self]
        rfl
      have hwin' : ∀ t' ∈ ts', ∀ r, (r ∈ rs ++ [t] ∨ r ∈ ts') → t' - r < W := by
        intro t' ht' r hr
        rcases hr with hr | hr
        · rcases List.mem_append.mp hr with hr | hr
          · exact hwin t' (List.mem_cons_of_mem t ht') r (Or.inl hr)
          · rw [List.mem_singleton] at hr
            subst hr
            exact hwin t' (List.mem_cons_of_mem r ht') r
              (Or.inr (List.mem_cons_self r ts'))
        · exact hwin t' (List.mem_cons_of_mem t ht') r
            (Or.inr (List.mem_cons_of_mem t hr))
      have hlen' : (rs ++ [t]).length + ts'.length ≤ maxR := by
        rw [List.length_append, List.length_singleton]
        simp only [List.length_cons] at hlen
        omega
      have hrec := ih (rs ++ [t]) ⟨mapSet rl.requests id (rs ++ [t])⟩
        hrs' hwin' hlen'
      rw [runChecks_cons, hcheck]
      refine ⟨?_, ?_⟩
      · show (true :: _) = _
        rw [hrec.1, List.length_cons, List.replicate_succ]
      · show (mapGet ((RateLimiter.runChecks _ id maxR W ts').2).requests
            id).getD [] = _
        rw [hrec.2, List.append_assoc, List.singleton_append]

theorem runChecks_append (rl : RateLimiter) (id : String) (maxR W : Nat)
    (ts1 ts2 : List Nat) :
    rl.runChecks id maxR W (ts1 ++ ts2) =
      ((rl.runChecks id maxR W ts1).1 ++
        ((rl.runChecks id maxR W ts1).2.runChecks id maxR W ts2).1,
       ((rl.runChecks id maxR W ts1).2.runChecks id maxR W ts2).2) := by
  induction ts1 generalizing rl with
  | nil => rfl
  | cons t ts1' ih =>
      rw [List.cons_append, runChecks_cons, runChecks_cons, ih]
      rfl

/-!
### Claims C5 and C10: the sliding-window rate limiter
-/

/-- **C5.** `checkLimit` (1) first prunes the identifier's history of
timestamps older than the window, allows exactly when the pruned count is
strictly below `maxRequests`, records `now` (appended to the pruned,
written-back history) when it allows, and changes nothing when it denies;
(2) starting fresh, `N` checks within one window are all allowed and the
`(N+1)`-th check within the window is denied; (3) once the window has
elapsed since some recorded timestamp (in particular the earliest one) of a
history at/below the limit, a subsequent check is allowed again. -/
theorem rateLimiter_sliding_window_spec :
    (∀ (rl : RateLimiter) (id : String) (maxR W now : Nat),
      ((rl.checkLimit id maxR W now).1 = true ↔
        (pruneRecent ((mapGet rl.requests id).getD []) W now).length < maxR) ∧
      ((rl.checkLimit id maxR W now).1 = true →
        (mapGet ((rl.checkLimit id maxR W now).2).requests id).getD []
          = pruneRecent ((mapGet rl.requests id).getD []) W now ++ [now]) ∧
      ((rl.checkLimit id maxR W now).1 = false →
        (rl.checkLimit id maxR W now).2 = rl)) ∧
    (∀ (id : String) (maxR W : Nat) (ts : List Nat) (tlast : Nat),
      ts.length = maxR →
      (∀ x ∈ ts ++ [tlast], ∀ y ∈ ts ++ [tlast], y - x < W) →
      (RateLimiter.new.runChecks id maxR W (ts ++ [tlast])).1
        = List.replicate maxR true ++ [false]) ∧
    (∀ (rl : RateLimiter) (id : String) (maxR W now e : Nat),
      e ∈ (mapGet rl.requests id).getD [] →
      ((mapGet rl.requests id).getD []).length ≤ maxR →
      e + W ≤ now →
      (rl.checkLimit id maxR W now).1 = true) := by
  refine ⟨?_, ?_, ?_⟩
  · intro rl id maxR W now
    refine ⟨checkLimit_allowed_iff rl id maxR W now, ?_,
      checkLimit_denied_state rl id maxR W now⟩
    intro h
    rw [checkLimit_allowed_state rl id maxR W now h]
    dsimp only
    rw [mapGet_mapSet_self]
    rfl
  · intro id maxR W ts tlast hlen hwin
    have hwin0 : ∀ t ∈ ts, ∀ r, (r ∈ ([] : List Nat) ∨ r ∈ ts) → t - r < W := by
      intro t ht r hr
      rcases hr with hr | hr
      · cases hr
      · exact hwin r (List.mem_append_left _ hr) t (List.mem_append_left _ ht)
    have hfill := runChecks_all_allowed id maxR W ts [] RateLimiter.new rfl
      hwin0 (by simp [hlen])
    have hrs2 : (mapGet ((RateLimiter.new.runChecks id maxR W ts).2).requests
        id).getD [] = ts := by
      have := hfill.2
      simpa using this
    have hfilter : pruneRecent ts W tlast = ts := by
      unfold pruneRecent
      apply List.filter_eq_self.mpr
      intro r hr
      have := hwin r (List.mem_append_left _ hr) tlast
        (List.mem_append_right _ (List.mem_singleton_self tlast))
      simpa using this
    have hnotallow :
        ¬ (((RateLimiter.new.runChecks id maxR W ts).2.checkLimit id maxR W
          tlast).1 = true) := by
      rw [checkLimit_allowed_iff, hrs2, hfilter, hlen]
      omega
    have hdenied :
        ((RateLimiter.new.runChecks id maxR W ts).2.checkLimit id maxR W
          tlast).1 = false := by
      rcases hb : ((RateLimiter.new.runChecks id maxR W ts).2.checkLimit id
          maxR W tlast).1
      · rfl
      · exact absurd hb hnotallow
    rw [runChecks_append, hfill.1, runChecks_cons, hdenied, hlen]
    rfl
  · intro rl id maxR W now e he hlen hep
    rw [checkLimit_allowed_iff]
    have hdrop : (pruneRecent ((mapGet rl.requests id).getD []) W now).length
        < ((mapGet rl.requests id).getD []).length := by
      apply length_filter_lt_of_mem_not _ _ e he
      simp only [decide_eq_false_iff_not]
      omega
    omega

/-- Witness for `rateLimiter_sliding_window_spec`: with limit 2 and window
10, checks at times 0, 1, 2 give allowed, allowed, denied; and with a full
history `[0, 1]`, a check at time 10 (one window past the earliest
timestamp 0) is allowed again. -/
theorem rateLimiter_sliding_window_spec_witness :
    (RateLimiter.new.runChecks "ip" 2 10 ([0, 1] ++ [2])).1
      = List.replicate 2 true ++ [false] ∧
    ((⟨[("ip", [0, 1])]⟩ : RateLimiter).checkLimit "ip" 2 10 10).1 = true :=
  ⟨rateLimiter_sliding_window_spec.2.1 "ip" 2 10 [0, 1] 2 rfl (by decide),
   rateLimiter_sliding_window_spec.2.2 ⟨[("ip", [0, 1])]⟩ "ip" 2 10 10 0
     (by decide) (by decide) (by decide)⟩

/-- **C10.** A denied `checkLimit` call leaves the limiter's stored state
completely unchanged: the allowed branch is the only one that writes, so on
denial no timestamp is recorded and the lazily pruned history is not
written back to the map. -/
theorem rateLimiter_denied_is_pure (rl : RateLimiter) (id : String)
    (maxR W now : Nat) (h : (rl.checkLimit id maxR W now).1 = false) :
    (rl.checkLimit id maxR W now).2 = rl :=
  checkLimit_denied_state rl id maxR W now h

/-- Witness for `rateLimiter_denied_is_pure`: a denied check (limit 0)
leaves the fresh limiter untouched. -/
theorem rateLimiter_denied_is_pure_witness :
    (RateLimiter.new.checkLimit "ip" 0 60000 5).2 = RateLimiter.new :=
  rateLimiter_denied_is_pure RateLimiter.new "ip" 0 60000 5 rfl

/-!
### Claim C1: the overall deadline
-/

/-- **C1, counterexample.** A single task slower (50 ms) than the deadline
(10 ms) makes the run fail — but with `CrawlError` variant `unknown`, not
`timeout{timeoutMs, stage}`: `p-timeout` rejects with a generic
`TimeoutError` and `CrawlService`'s catch-all wraps every thrown value as
`{type:'unknown', message, cause}`.  No code path constructs the `timeout`
variant, and no stage name is attached. -/
theorem deadline_expiry_yields_unknown_not_timeout :
    crawlServiceRun [⟨"slow", 50, fun ctx => .ok ctx⟩] 10 "https://example.com"
      = .failure (.unknown "Promise timed out after 10 milliseconds"
          (some (.timeoutError 10))) ∧
    ((crawlServiceRun [⟨"slow", 50, fun ctx => .ok ctx⟩] 10
        "https://example.com").errorOf.map CrawlError.typeName
      = some "unknown") := by
  constructor <;> rfl

/-- **C1** (amended).  If the chain has not settled when the configured
deadline `T` elapses, `Workflow.run` rejects with `p-timeout`'s generic
`TimeoutError` (message "Promise timed out after T milliseconds", `T` the
configured deadline), and `CrawlService.crawlUrl` surfaces it as the
`CrawlError` variant `unknown` carrying that message and the thrown error as
cause; the `timeout{timeoutMs, stage}` variant is never produced and no
stage name is reported. -/
theorem deadline_expiry_behavior (tasks : List Task) (url : String) (T : Nat)
    (h : T < settleTime tasks (.initial url)) :
    workflowRun tasks (.initial url) (some T) = .error (.timeoutError T) ∧
    crawlServiceRun tasks T url
      = .failure (.unknown ((JsError.timeoutError T).message)
          (some (.timeoutError T))) := by
  unfold settleTime at h
  have h1 : workflowRun tasks (.initial url) (some T)
      = .error (.timeoutError T) := by
    unfold workflowRun
    dsimp only
    rw [if_pos h]
  refine ⟨h1, ?_⟩
  unfold crawlServiceRun
  rw [h1]

/-- Witness for `deadline_expiry_behavior` at the counterexample's input. -/
theorem deadline_expiry_behavior_witness :
    workflowRun [⟨"slow", 50, fun ctx => .ok ctx⟩]
        (.initial "https://example.com") (some 10)
      = .error (.timeoutError 10) :=
  (deadline_expiry_behavior [⟨"slow", 50, fun ctx => .ok ctx⟩]
    "https://example.com" 10 (by decide)).1

/-!
### Claim C9: HTTP status for failed pipeline runs
-/

/-- **C9, counterexample.** The `POST /crawl` handler attaches status 500 to
every failed pipeline result: for a `fetch_failed` error the response status
is 500, not the claimed 502. -/
theorem post_crawl_fetch_failed_gets_500 :
    postCrawlStatus (.failure (.fetch_failed 404 "Not Found"
        "https://example.com")) = 500 ∧
    crawlErrorToStatusCode (.fetch_failed 404 "Not Found"
        "https://example.com") = 502 := by
  constructor <;> rfl

/-- **C9** (amended).  The handler returns 200 for a successful pipeline
result and 500 for every failed one, regardless of the error variant; the
variant-to-status table of the claim is implemented by
`crawlErrorToStatusCode` (`fetch_failed→502`, `timeout→504`,
`parse_failed→422`, `invalid_html→422`, `network_error→503`,
`unknown→500`), but that mapping is applied only by the error handler to
*thrown* errors, which pipeline failures — returned as result values — never
reach. -/
theorem post_crawl_status_mapping :
    (∀ d : CrawlResultData, postCrawlStatus (.success d) = 200) ∧
    (∀ e : CrawlError, postCrawlStatus (.failure e) = 500) ∧
    (∀ s st u, crawlErrorToStatusCode (.fetch_failed s st u) = 502) ∧
    (∀ ms st, crawlErrorToStatusCode (.timeout ms st) = 504) ∧
    (∀ m st, crawlErrorToStatusCode (.parse_failed m st) = 422) ∧
    (∀ m, crawlErrorToStatusCode (.invalid_html m) = 422) ∧
    (∀ m c, crawlErrorToStatusCode (.network_error m c) = 503) ∧
    (∀ m c, crawlErrorToStatusCode (.unknown m c) = 500) := by
  refine ⟨fun _ => rfl, fun _ => rfl, fun _ _ _ => rfl, fun _ _ => rfl,
    fun _ _ => rfl, fun _ => rfl, fun _ _ => rfl, fun _ _ => rfl⟩

/-!
### Claim C7: monotonic field accumulation
-/

/-- **C7.** For each of the five stage transitions, whenever the stage
succeeds on an input context of its expected variant, the output context's
data fields extend the input's: `ctxFields out = ctxFields in ++ extra` for
a nonempty `extra`, so every carried-over field (including `url`) appears
unchanged, in the same order, and at least one new field is added — no stage
drops an earlier field.  This holds for every behavior of the external
markup-processing collaborators. -/
theorem stage_transitions_accumulate_fields :
    (∀ (attempt : Nat → AttemptOutcome) (extractTitle : String → Option String)
        (ctx out : CrawlContext),
      fetchHtmlRun attempt extractTitle ctx = .ok out →
      ∃ extra, extra ≠ [] ∧ ctxFields out = ctxFields ctx ++ extra) ∧
    (∀ (extractMeta : String → Option String → Metadata)
        (ctx out : CrawlContext),
      extractMetadataRun extractMeta ctx = .ok out →
      ∃ extra, extra ≠ [] ∧ ctxFields out = ctxFields ctx ++ extra) ∧
    (∀ (selectContent : String → String) (ctx out : CrawlContext),
      parseDocumentRun selectContent ctx = .ok out →
      ∃ extra, extra ≠ [] ∧ ctxFields out = ctxFields ctx ++ extra) ∧
    (∀ (cleanHtml : String → String) (ctx out : CrawlContext),
      cleanDocumentRun cleanHtml ctx = .ok out →
      ∃ extra, extra ≠ [] ∧ ctxFields out = ctxFields ctx ++ extra) ∧
    (∀ (turndown : String → String) (ctx out : CrawlContext),
      convertToMarkdownRun turndown ctx = .ok out →
      ∃ extra, extra ≠ [] ∧ ctxFields out = ctxFields ctx ++ extra) := by
  refine ⟨?_, ?_, ?_, ?_, ?_⟩
  · intro attempt extractTitle ctx out h
    cases ctx <;> simp only [fetchHtmlRun] at h
    case initial url =>
      rcases hA : (runAttempts attempt (FETCH_RETRIES + 1) 1).1 with msg | r
      · rw [hA] at h
        cases h
      · rw [hA] at h
        dsimp only at h
        by_cases hok : r.respOk
        · rw [if_pos hok] at h
          cases h
          exact ⟨[("html", .str r.body), ("title", .optStr (extractTitle r.body))],
            by simp, rfl⟩
        · rw [if_neg hok] at h
          cases h
    all_goals cases h
  · intro extractMeta ctx out h
    cases ctx <;> simp only [extractMetadataRun] at h
    case fetched url html title =>
      cases h
      exact ⟨[("metadata", .meta (extractMeta html title))], by simp, rfl⟩
    all_goals cases h
  · intro selectContent ctx out h
    cases ctx <;> simp only [parseDocumentRun] at h
    case metadata_extracted url html title metadata =>
      cases h
      exact ⟨[("document", .str (selectContent html))], by simp, rfl⟩
    all_goals cases h
  · intro cleanHtml ctx out h
    cases ctx <;> simp only [cleanDocumentRun] at h
    case parsed url html title metadata document =>
      cases h
      exact ⟨[("cleanedDocument", .str (cleanHtml document))], by simp, rfl⟩
    all_goals cases h
  · intro turndown ctx out h
    cases ctx <;> simp only [convertToMarkdownRun] at h
    case cleaned url html title metadata document cleanedDocument =>
      cases h
      exact ⟨[("markdown", .str (turndown cleanedDocument))], by simp, rfl⟩
    all_goals cases h

/-- Witness for `stage_transitions_accumulate_fields`: the metadata stage on
a concrete fetched context adds exactly the `metadata` field. -/
theorem stage_transitions_accumulate_fields_witness :
    ∃ extra, extra ≠ [] ∧
      ctxFields (.metadata_extracted "https://example.com" "<html></html>"
        none []) = ctxFields (.fetched "https://example.com" "<html></html>"
        none) ++ extra :=
  stage_transitions_accumulate_fields.2.1 (fun _ _ => [])
    (.fetched "https://example.com" "<html></html>" none)
    (.metadata_extracted "https://example.com" "<html></html>" none []) rfl

/-!
### Claim C8: non-2xx responses in the fetch stage
-/

/-- **C8, counterexample.** A first attempt that resolves with status 404
makes the fetch stage throw the plain `Error` "Fetch failed: 404 Not Found"
— not a `CrawlError` of variant `fetch_failed`: through the service boundary
the failure surfaces as variant `unknown` (the stage never constructs
`fetch_failed`).  The no-retry half of the claim does hold: exactly one
`fetch` invocation is made. -/
theorem fetch_non2xx_surfaces_as_unknown :
    ((crawlServiceRun [⟨"fetch_html", 0,
        fetchHtmlRun (fun _ => .resolved ⟨404, "Not Found", ""⟩)
          (fun _ => none)⟩] 30000 "https://example.com").errorOf.map
        CrawlError.typeName = some "unknown") ∧
    fetchAttemptCount (fun _ => .resolved ⟨404, "Not Found", ""⟩) = 1 := by
  constructor <;> rfl

/-- `pRetry` behavior: if the first `j` attempts (numbered `n`, `n+1`, …)
reject and attempt `n + j` resolves with response `r`, then — as long as
the resolving attempt is within the fuel — the retry loop returns `r` after
exactly `j + 1` attempts.  In particular a resolved response, whatever its
status, ends the loop: retries happen only on rejections. -/
theorem runAttempts_resolved_after_rejections (attempt : Nat → AttemptOutcome)
    (r : FetchResponse) :
    ∀ (j fuel n : Nat), j < fuel →
    (∀ i, i < j → ∃ msg, attempt (n + i) = .rejected msg) →
    attempt (n + j) = .resolved r →
    runAttempts attempt fuel n = (.ok r, j + 1) := by
  intro j
  induction j with
  | zero =>
      intro fuel n hfuel hrej hres
      simp only [Nat.add_zero] at hres
      rcases fuel with _ | f
      · omega
      · show runAttempts attempt (f + 1) n = (.ok r, 1)
        unfold runAttempts
        rw [hres]
  | succ j' ih =>
      intro fuel n hfuel hrej hres
      rcases fuel with _ | f
      · omega
      obtain ⟨msg, hmsg⟩ := hrej 0 (Nat.succ_pos j')
      rw [Nat.add_zero] at hmsg
      rcases f with _ | f'
      · omega
      have hres' : attempt (n + 1 + j') = .resolved r := by
        rw [show n + 1 + j' = n + (j' + 1) from by omega]
        exact hres
      have hrej' : ∀ i, i < j' → ∃ m, attempt (n + 1 + i) = .rejected m := by
        intro i hi
        have h := hrej (i + 1) (by omega)
        rw [show n + (i + 1) = n + 1 + i from by omega] at h
        exact h
      show runAttempts attempt (f' + 1 + 1) n = (.ok r, j' + 1 + 1)
      unfold runAttempts
      rw [hmsg]
      dsimp only
      rw [ih (f' + 1) (n + 1) (by omega) hrej' hres']

/-- **C8** (amended).  For every fetch-stage run in which an HTTP response
with a non-2xx status is obtained — on the first attempt or after any
number `j ≤ RETRIES` of transient rejections — the stage fails terminally
by throwing a plain `Error` whose message is
`"Fetch failed: {status} {statusText}"` — surfaced by `CrawlService` as
`CrawlError` variant `unknown`, not `fetch_failed` — and the non-2xx
response itself is never retried: exactly `j + 1` attempts are made (the
resolving one is the last), because `pRetry` retries only attempts whose
promise rejects before a response is obtained. -/
theorem fetch_non2xx_terminal_no_retry (attempt : Nat → AttemptOutcome)
    (extractTitle : String → Option String) (url : String)
    (r : FetchResponse) (j : Nat) (hj : j ≤ FETCH_RETRIES)
    (hrej : ∀ i, i < j → ∃ msg, attempt (1 + i) = .rejected msg)
    (hres : attempt (1 + j) = .resolved r)
    (h2 : r.respOk = false) (durMs T : Nat) (hT : durMs ≤ T) :
    fetchHtmlRun attempt extractTitle (.initial url)
      = .error (.jsError ("Fetch failed: " ++ toString r.status ++ " "
          ++ r.statusText)) ∧
    fetchAttemptCount attempt = j + 1 ∧
    crawlServiceRun [⟨"fetch_html", durMs, fetchHtmlRun attempt extractTitle⟩]
        T url
      = .failure (.unknown ("Fetch failed: " ++ toString r.status ++ " "
          ++ r.statusText)
          (some (.jsError ("Fetch failed: " ++ toString r.status ++ " "
            ++ r.statusText)))) := by
  have hA : runAttempts attempt (FETCH_RETRIES + 1) 1 = (.ok r, j + 1) :=
    runAttempts_resolved_after_rejections attempt r j (FETCH_RETRIES + 1) 1
      (by
        unfold FETCH_RETRIES at hj ⊢
        omega)
      hrej hres
  have hfetch : fetchHtmlRun attempt extractTitle (.initial url)
      = .error (.jsError ("Fetch failed: " ++ toString r.status ++ " "
          ++ r.statusText)) := by
    unfold fetchHtmlRun
    rw [hA]
    dsimp only
    rw [h2]
    rfl
  refine ⟨hfetch, by rw [fetchAttemptCount, hA], ?_⟩
  have hrun : runPipeline [⟨"fetch_html", durMs,
      fetchHtmlRun attempt extractTitle⟩] (.initial url) 0
      = (0 + durMs, .error (.jsError ("Fetch failed: " ++ toString r.status
          ++ " " ++ r.statusText))) := by
    unfold runPipeline
    dsimp only
    rw [hfetch]
  have hwf : workflowRun [⟨"fetch_html", durMs,
      fetchHtmlRun attempt extractTitle⟩] (.initial url) (some T)
      = .error (.jsError ("Fetch failed: " ++ toString r.status ++ " "
          ++ r.statusText)) := by
    unfold workflowRun
    rw [hrun]
    dsimp only
    rw [if_neg (by omega)]
  unfold crawlServiceRun
  rw [hwf]
  rfl

/-- Witness for `fetch_non2xx_terminal_no_retry`: the first attempt rejects
(a transient network error, which is retried), the second attempt resolves
with a 404 — the stage throws the terminal error and makes exactly two
attempts, never retrying the non-2xx response. -/
theorem fetch_non2xx_terminal_no_retry_witness :
    fetchHtmlRun
        (fun n => if n = 1 then .rejected "ECONNRESET"
          else .resolved ⟨404, "Not Found", ""⟩) (fun _ => none)
        (.initial "https://example.com")
      = .error (.jsError ("Fetch failed: " ++ toString 404 ++ " "
          ++ "Not Found")) ∧
    fetchAttemptCount
        (fun n => if n = 1 then .rejected "ECONNRESET"
          else .resolved ⟨404, "Not Found", ""⟩) = 2 :=
  have h := fetch_non2xx_terminal_no_retry
    (fun n => if n = 1 then .rejected "ECONNRESET"
      else .resolved ⟨404, "Not Found", ""⟩)
    (fun _ => none) "https://example.com" ⟨404, "Not Found", ""⟩ 1 (by decide)
    (by
      intro i hi
      have hi0 : i = 0 := by omega
      subst hi0
      exact ⟨"ECONNRESET", rfl⟩)
    rfl (by decide) 0 30000 (by decide)
  ⟨h.1, h.2.1⟩

end QuickCrawl
